import Mathlib

/-!
Verification of the `mentions-hashtags-rs` library (`src/lib.rs`).

The library extracts unique `@mention` and `#hashtag` tokens from text.
`parse_mentions` runs the regex `(?i)@[a-zA-Z0-9_\-.]+` over the input with
`find_iter`, collects the matched substrings into a `HashSet<String>` and
returns them as a `Vec<String>`; `parse_hashtags` does the same with marker
`#`; `parse_mentions_hashtags` conditionally runs both and packages the
results into a `MentionsHashtags` struct.

Embedding choices:
* A string is scanned as its `List Char`.
* The regex body class is `isBodyChar`: the written class `[a-zA-Z0-9_\-.]`
  closed under the Unicode simple case folding that the `(?i)` flag applies
  in the regex crate's default Unicode mode, which adds U+017F (long s) and
  U+212A (Kelvin sign).  `isSpecBodyChar` is the ASCII-only class that the
  spec text claims; the two differ exactly at those two characters.
* `find_iter` semantics (leftmost non-overlapping matches, `+` greedy and
  maximal) is `findIter`: at each position, if the marker is followed by at
  least one body character, the maximal body run is emitted and scanning
  resumes after the match; otherwise scanning advances one character.
* `findTokens` is an equivalent structural-recursion formulation (it resumes
  at the next character instead of after the match; since the marker is not a
  body character no match can start inside another match, so the two agree —
  proved in `findIter_eq_findTokens`).  `findTokens` is used in the extractors
  so that concrete inputs evaluate by `decide`.
* `Regex::new` on the two fixed literal patterns is `compileRegex`, a parser
  for exactly this pattern family `(?i)<marker>[a-zA-Z0-9_\-.]+`, returning
  the marker; the `?` propagation of the compilation error is the
  `Except String` result type.
* The `HashSet` deduplication followed by `Vec` conversion is `List.dedup`;
  the source's output order is unspecified (HashSet iteration order), so all
  order-sensitive facts proved below about the model are read as facts about
  the element sets and duplicate-freeness, which are order-independent.
-/

/-- The regex body character class of `src/lib.rs` (lines 95 and 124): the
written class `[a-zA-Z0-9_\-.]` — ASCII letters, digits, underscore, hyphen,
period — closed under Unicode simple case folding, because the `(?i)` flag
in the regex crate's default Unicode mode folds character classes.  The
folding closure of `[a-zA-Z]` adds exactly U+017F LATIN SMALL LETTER LONG S
(folds with `s`) and U+212A KELVIN SIGN (folds with `k`), so the compiled
class is the ASCII set plus those two characters. -/
def isBodyChar (c : Char) : Bool :=
  c.isAlpha || c.isDigit || c == '_' || c == '-' || c == '.' ||
    c == Char.ofNat 0x017F || c == Char.ofNat 0x212A

/-- Modelled from the spec: the body class as the spec states it (section 6,
"Body character class: ASCII `A-Z`, `a-z`, `0-9`, `_`, `-`, `.`"), without
the case-folding closure the compiled regex actually has.  It differs from
`isBodyChar` exactly at U+017F and U+212A; used only to exhibit where the
spec's class diverges from the program. -/
def isSpecBodyChar (c : Char) : Bool :=
  c.isAlpha || c.isDigit || c == '_' || c == '-' || c == '.'

/-- `Regex::find_iter` with pattern `<marker>[body]+`: leftmost
non-overlapping matches; each match is the marker followed by the maximal
(greedy) run of body-class characters, scanning resumes after the match. -/
def findIter (marker : Char) : List Char → List (List Char)
  | [] => []
  | c :: cs =>
    if c == marker && !(cs.takeWhile isBodyChar).isEmpty then
      (c :: cs.takeWhile isBodyChar) :: findIter marker (cs.dropWhile isBodyChar)
    else
      findIter marker cs
termination_by l => l.length
decreasing_by
  · simp only [List.length_cons, Nat.lt_succ_iff]
    exact (List.dropWhile_sublist _).length_le
  · simp

/-- Structurally recursive reformulation of `findIter`: scanning resumes at
the next character rather than after the match.  Equal to `findIter` whenever
the marker is not a body character (`findIter_eq_findTokens`), which holds
for the markers `@` and `#` actually used. -/
def findTokens (marker : Char) : List Char → List (List Char)
  | [] => []
  | c :: cs =>
    if c == marker && !(cs.takeWhile isBodyChar).isEmpty then
      (c :: cs.takeWhile isBodyChar) :: findTokens marker cs
    else
      findTokens marker cs

/-- The regex pattern literal of `parse_mentions` (`src/lib.rs` line 95). -/
def mentionsPattern : String := "(?i)@[a-zA-Z0-9_\\-.]+"

/-- The regex pattern literal of `parse_hashtags` (`src/lib.rs` line 124). -/
def hashtagsPattern : String := "(?i)#[a-zA-Z0-9_\\-.]+"

/-- The concrete syntax of the body class in both pattern literals. -/
def bodyClassSpec : List Char :=
  ['[', 'a', '-', 'z', 'A', '-', 'Z', '0', '-', '9', '_', '\\', '-', '.', ']', '+']

/-- Model of `Regex::new` restricted to the pattern family actually used:
`(?i)` followed by a single marker character followed by `[a-zA-Z0-9_\-.]+`.
Compilation succeeds exactly on that shape and yields the marker; on any
other input it fails, which the callers surface via `?`. -/
def compileRegex (pattern : String) : Option Char :=
  match pattern.toList with
  | '(' :: '?' :: 'i' :: ')' :: marker :: rest =>
    if rest = bodyClassSpec then some marker else none
  | _ => none

/-- `parse_mentions` from `src/lib.rs` lines 94-101: compile the mention
pattern (propagating a compilation failure), collect all matches, dedup. -/
def parse_mentions (description : String) : Except String (List String) :=
  match compileRegex mentionsPattern with
  | some marker => .ok (((findTokens marker description.toList).map String.mk).dedup)
  | none => .error ("mention pattern failed to compile")

/-- `parse_hashtags` from `src/lib.rs` lines 123-130: same as
`parse_mentions` with the hashtag pattern. -/
def parse_hashtags (description : String) : Except String (List String) :=
  match compileRegex hashtagsPattern with
  | some marker => .ok (((findTokens marker description.toList).map String.mk).dedup)
  | none => .error ("hashtag pattern failed to compile")

/-- The `MentionsHashtags` struct from `src/lib.rs` lines 24-27. -/
structure MentionsHashtags where
  mentions : List String
  hashtags : List String
deriving Repr, DecidableEq

/-- `parse_mentions_hashtags` from `src/lib.rs` lines 54-72: start from the
default (empty) struct, return it at once if both flags are false, otherwise
fill in each requested field, propagating extractor failures. -/
def parse_mentions_hashtags (description : String) (mentions : Bool)
    (hashtags : Bool) : Except String MentionsHashtags := do
  let mut result : MentionsHashtags := ⟨[], []⟩
  if !mentions && !hashtags then
    return result
  if mentions then
    result := { result with mentions := (← parse_mentions description) }
  if hashtags then
    result := { result with hashtags := (← parse_hashtags description) }
  return result

/-- The payload of a successful extractor call (used to state properties of
the returned collection; `extractors_never_fail` shows the error branch is
unreachable). -/
def okValue (r : Except String (List String)) : List String :=
  match r with
  | .ok l => l
  | .error _ => []

/-- The payload of a successful combiner call. -/
def okResult (r : Except String MentionsHashtags) : MentionsHashtags :=
  match r with
  | .ok v => v
  | .error _ => ⟨[], []⟩

/-- Swap every `@` with `#` and vice versa, leaving other characters alone
(used to state that the two extractors are the same algorithm up to the
marker). -/
def swapChar (c : Char) : Char :=
  if c == '@' then '#' else if c == '#' then '@' else c

/-- `swapChar` applied to a whole string. -/
def swapString (s : String) : String :=
  String.mk (s.toList.map swapChar)

/-- `tok` occurs in `text` as a (maximal) token occurrence: it appears
verbatim as a contiguous substring and the character immediately after the
occurrence, if any, is not a body-class character. -/
def occursAsToken (text tok : String) : Prop :=
  ∃ pre post, text.toList = pre ++ tok.toList ++ post ∧
    ∀ c ∈ post.head?, isBodyChar c = false

/-- Modelled from the spec: `occursAsToken` with the spec's ASCII-only body
class in the maximality condition.  Where the two differ (a token followed by
U+017F or U+212A) the real regex extends the match instead of stopping, which
is what the counterexamples below exhibit. -/
def specOccursAsToken (text tok : String) : Prop :=
  ∃ pre post, text.toList = pre ++ tok.toList ++ post ∧
    ∀ c ∈ post.head?, isSpecBodyChar c = false

-- Sanity checks of the embedding on the library's own doc examples and tests.
example : okValue (parse_mentions ("@charlidamelio @Khaby.Lame")) =
    ["@charlidamelio", "@Khaby.Lame"] := by decide
example : okValue (parse_hashtags ("#fyp #CapCut #go_crazy.")) =
    ["#fyp", "#CapCut", "#go_crazy."] := by decide
example : okValue (parse_mentions ("@charlidamelio @charlidamelio @Khaby.Lame")) =
    ["@charlidamelio", "@Khaby.Lame"] := by decide
example : okValue (parse_mentions ("")) = [] := by decide

/-! ### Helper lemmas -/

theorem head?_false_takeWhile_eq_nil {p : Char → Bool} {l : List Char}
    (h : ∀ c ∈ l.head?, p c = false) : l.takeWhile p = [] := by
  cases l with
  | nil => rfl
  | cons c cs =>
    have hc : p c = false := h c (by simp)
    simp [List.takeWhile_cons, hc]

theorem head?_dropWhile_false (p : Char → Bool) (l : List Char) :
    ∀ c ∈ (l.dropWhile p).head?, p c = false := by
  intro d hd
  have h := List.head?_dropWhile_not p l
  rw [Option.mem_def] at hd
  rw [hd] at h
  exact h

theorem mem_findTokens_cons {marker c : Char} {l : List Char} {t : List Char}
    (h : t ∈ findTokens marker l) : t ∈ findTokens marker (c :: l) := by
  rw [findTokens]
  split
  · exact List.mem_cons_of_mem _ h
  · exact h

theorem findTokens_skip_body {marker : Char} (hm : isBodyChar marker = false)
    {t : List Char} (ht : ∀ c ∈ t, isBodyChar c = true) (r : List Char) :
    findTokens marker (t ++ r) = findTokens marker r := by
  induction t with
  | nil => rfl
  | cons c cs ih =>
    have hc : (c == marker) = false := by
      cases hcm : c == marker
      · rfl
      · exact absurd (ht c (by simp)) (by rw [eq_of_beq hcm, hm]; simp)
    rw [List.cons_append, findTokens, hc]
    simp only [Bool.false_and, if_neg Bool.false_ne_true]
    exact ih fun d hd => ht d (List.mem_cons_of_mem _ hd)

theorem findIter_eq_findTokens {marker : Char} (hm : isBodyChar marker = false) :
    ∀ l : List Char, findIter marker l = findTokens marker l := by
  have key : ∀ n, ∀ l : List Char, l.length ≤ n →
      findIter marker l = findTokens marker l := by
    intro n
    induction n with
    | zero =>
      intro l hl
      cases l with
      | nil => rw [findIter, findTokens]
      | cons c cs => simp at hl
    | succ n ih =>
      intro l hl
      cases l with
      | nil => rw [findIter, findTokens]
      | cons c cs =>
        have hcs : cs.length ≤ n := Nat.le_of_succ_le_succ hl
        rw [findIter, findTokens]
        split
        · have h1 : findIter marker (cs.dropWhile isBodyChar) =
              findTokens marker (cs.dropWhile isBodyChar) :=
            ih _ (le_trans (List.dropWhile_sublist _).length_le hcs)
          have h2 : findTokens marker cs =
              findTokens marker (cs.dropWhile isBodyChar) := by
            conv_lhs => rw [← List.takeWhile_append_dropWhile isBodyChar cs]
            exact findTokens_skip_body hm
              (fun d hd => List.mem_takeWhile_imp hd) _
          rw [h1, h2]
        · exact ih cs hcs
  exact fun l => key l.length l le_rfl

theorem findTokens_sound {marker : Char} {l t : List Char}
    (h : t ∈ findTokens marker l) :
    ∃ body pre post, t = marker :: body ∧ body ≠ [] ∧
      (∀ c ∈ body, isBodyChar c = true) ∧
      l = pre ++ t ++ post ∧ (∀ c ∈ post.head?, isBodyChar c = false) := by
  induction l with
  | nil => exact absurd h (by simp [findTokens])
  | cons c cs ih =>
    rw [findTokens] at h
    split at h
    · rename_i hcond
      rw [Bool.and_eq_true] at hcond
      obtain ⟨hc, hne⟩ := hcond
      rcases List.mem_cons.mp h with heq | hmem
      · refine ⟨cs.takeWhile isBodyChar, [], cs.dropWhile isBodyChar, ?_, ?_, ?_, ?_, ?_⟩
        · rw [heq, eq_of_beq hc]
        · intro hnil
          rw [hnil] at hne
          simp at hne
        · exact fun d hd => List.mem_takeWhile_imp hd
        · rw [heq]
          simp [List.takeWhile_append_dropWhile]
        · exact head?_dropWhile_false isBodyChar cs
      · obtain ⟨body, pre, post, h1, h2, h3, h4, h5⟩ := ih hmem
        exact ⟨body, c :: pre, post, h1, h2, h3, by simp [h4], h5⟩
    · obtain ⟨body, pre, post, h1, h2, h3, h4, h5⟩ := ih h
      exact ⟨body, c :: pre, post, h1, h2, h3, by simp [h4], h5⟩

theorem findTokens_complete {marker : Char} {body post : List Char}
    (hb : body ≠ []) (hbc : ∀ c ∈ body, isBodyChar c = true)
    (hp : ∀ c ∈ post.head?, isBodyChar c = false) :
    ∀ pre : List Char,
      (marker :: body) ∈ findTokens marker (pre ++ (marker :: body) ++ post) := by
  intro pre
  induction pre with
  | nil =>
    rw [List.nil_append, List.cons_append, findTokens]
    have htw : (body ++ post).takeWhile isBodyChar = body := by
      rw [List.takeWhile_append_of_pos hbc, head?_false_takeWhile_eq_nil hp,
        List.append_nil]
    rw [htw]
    have hcond : (marker == marker && !body.isEmpty) = true := by
      simp [List.isEmpty_iff, hb]
    rw [if_pos hcond]
    exact List.mem_cons_self _ _
  | cons c pre ih =>
    exact mem_findTokens_cons ih

theorem findTokens_length_le_count (marker : Char) (l : List Char) :
    (findTokens marker l).length ≤ l.count marker := by
  induction l with
  | nil => simp [findTokens]
  | cons c cs ih =>
    rw [findTokens]
    split
    · rename_i hcond
      rw [Bool.and_eq_true] at hcond
      have hcount : List.count marker (c :: cs) = List.count marker cs + 1 := by
        simp [List.count_cons, hcond.1]
      rw [List.length_cons, hcount]
      exact Nat.succ_le_succ ih
    · calc (findTokens marker cs).length ≤ cs.count marker := ih
        _ ≤ (c :: cs).count marker := by
          rw [List.count_cons]
          exact Nat.le_add_right _ _

theorem mk_toList (s : String) : String.mk s.toList = s := rfl

theorem parse_mentions_eq (d : String) :
    parse_mentions d = .ok (((findTokens '@' d.toList).map String.mk).dedup) := rfl

theorem parse_hashtags_eq (d : String) :
    parse_hashtags d = .ok (((findTokens '#' d.toList).map String.mk).dedup) := rfl

theorem okValue_parse_mentions (d : String) :
    okValue (parse_mentions d) = ((findTokens '@' d.toList).map String.mk).dedup := rfl

theorem okValue_parse_hashtags (d : String) :
    okValue (parse_hashtags d) = ((findTokens '#' d.toList).map String.mk).dedup := rfl

theorem parse_mentions_hashtags_eq (d : String) (m h : Bool) :
    parse_mentions_hashtags d m h =
      .ok ⟨if m then okValue (parse_mentions d) else [],
           if h then okValue (parse_hashtags d) else []⟩ := by
  cases m <;> cases h <;> rfl

theorem mem_okValue_mentions {text s : String}
    (hs : s ∈ okValue (parse_mentions text)) :
    s.toList ∈ findTokens '@' text.toList := by
  rw [okValue_parse_mentions, List.mem_dedup, List.mem_map] at hs
  obtain ⟨t, ht, rfl⟩ := hs
  exact ht

theorem mem_okValue_hashtags {text s : String}
    (hs : s ∈ okValue (parse_hashtags text)) :
    s.toList ∈ findTokens '#' text.toList := by
  rw [okValue_parse_hashtags, List.mem_dedup, List.mem_map] at hs
  obtain ⟨t, ht, rfl⟩ := hs
  exact ht

theorem mem_findTokens_okValue_mentions {text : String} {t : List Char}
    (ht : t ∈ findTokens '@' text.toList) :
    String.mk t ∈ okValue (parse_mentions text) := by
  rw [okValue_parse_mentions, List.mem_dedup, List.mem_map]
  exact ⟨t, ht, rfl⟩

theorem occursAsToken_mem {text tok : String} {marker : Char} {body : List Char}
    (htok : tok.toList = marker :: body) (hb : body ≠ [])
    (hbc : ∀ c ∈ body, isBodyChar c = true)
    (hocc : occursAsToken text tok) :
    tok.toList ∈ findTokens marker text.toList := by
  obtain ⟨pre, post, heq, hp⟩ := hocc
  rw [heq, htok]
  exact findTokens_complete hb hbc hp pre

theorem head?_cons_false {c0 : Char} (h : isBodyChar c0 = false)
    (rest : List Char) :
    ∀ c ∈ (c0 :: rest).head?, isBodyChar c = false := by
  intro c hc
  rw [List.head?_cons, Option.mem_def, Option.some.injEq] at hc
  rwa [← hc]

theorem head?_nil_false : ∀ c ∈ ([] : List Char).head?, isBodyChar c = false := by
  intro c hc
  simp at hc

theorem swapChar_swapChar : Function.Involutive swapChar := by
  intro c
  by_cases h1 : c = '@'
  · subst h1
    decide
  · by_cases h2 : c = '#'
    · subst h2
      decide
    · have b1 : (c == '@') = false := by simp [h1]
      have b2 : (c == '#') = false := by simp [h2]
      simp [swapChar, b1, b2]

theorem isBodyChar_swapChar (c : Char) : isBodyChar (swapChar c) = isBodyChar c := by
  by_cases h1 : c = '@'
  · subst h1
    decide
  · by_cases h2 : c = '#'
    · subst h2
      decide
    · have b1 : (c == '@') = false := by simp [h1]
      have b2 : (c == '#') = false := by simp [h2]
      simp [swapChar, b1, b2]

theorem swapChar_beq_at (c : Char) : (swapChar c == '@') = (c == '#') := by
  by_cases h1 : c = '@'
  · subst h1
    decide
  · by_cases h2 : c = '#'
    · subst h2
      decide
    · have b1 : (c == '@') = false := by simp [h1]
      have b2 : (c == '#') = false := by simp [h2]
      rw [swapChar, if_neg (by simp [h1]), if_neg (by simp [h2]), b1, b2]

theorem findTokens_map_swap (l : List Char) :
    findTokens '@' (l.map swapChar) = (findTokens '#' l).map (List.map swapChar) := by
  induction l with
  | nil => rfl
  | cons c cs ih =>
    have hcomp : (isBodyChar ∘ swapChar) = isBodyChar := by
      funext d
      exact isBodyChar_swapChar d
    have htw : (cs.map swapChar).takeWhile isBodyChar =
        (cs.takeWhile isBodyChar).map swapChar := by
      rw [List.takeWhile_map, hcomp]
    have hemp : ∀ t : List Char, (t.map swapChar).isEmpty = t.isEmpty := by
      intro t
      cases t <;> rfl
    rw [List.map_cons, findTokens, findTokens, htw, swapChar_beq_at, hemp]
    split
    · rw [List.map_cons, List.map_cons, ih]
    · exact ih

/-! ### Claim theorems -/

/-- Counterexample to C1 as stated: on input `"@ſ"` the extractor returns
the token `"@ſ"`, whose single body character U+017F is outside the claimed
class {A-Z, a-z, 0-9, `_`, `-`, `.`} — the `(?i)` simple case folding puts
it in the compiled class alongside `s`. -/
theorem tokens_wellformed_counterexample :
    okValue (parse_mentions ("@ſ")) = ["@ſ"] ∧
    ("@ſ" : String).toList = ['@', Char.ofNat 0x017F] ∧
    isSpecBodyChar (Char.ofNat 0x017F) = false := by
  decide

/-- C1 (amended: the body class is the compiled one, i.e. the claimed ASCII
class {A-Z, a-z, 0-9, `_`, `-`, `.`} plus U+017F and U+212A added by the
`(?i)` Unicode simple case folding): every string returned by
`parse_mentions` (resp. `parse_hashtags`) is the marker `@` (resp. `#`)
followed by one or more body-class characters, occurs verbatim as a
contiguous substring of the input, and the occurrence is maximal: the
character immediately following it, if any, is not a body-class
character. -/
theorem tokens_wellformed_and_maximal (text s : String) (marker : Char)
    (h : (marker = '@' ∧ s ∈ okValue (parse_mentions text)) ∨
         (marker = '#' ∧ s ∈ okValue (parse_hashtags text))) :
    ∃ body pre post, s.toList = marker :: body ∧ body ≠ [] ∧
      (∀ c ∈ body, isBodyChar c = true) ∧
      text.toList = pre ++ s.toList ++ post ∧
      (∀ c ∈ post.head?, isBodyChar c = false) := by
  have hmem : s.toList ∈ findTokens marker text.toList := by
    rcases h with ⟨hm, hs⟩ | ⟨hm, hs⟩
    · rw [hm]
      exact mem_okValue_mentions hs
    · rw [hm]
      exact mem_okValue_hashtags hs
  obtain ⟨body, pre, post, h1, h2, h3, h4, h5⟩ := findTokens_sound hmem
  exact ⟨body, pre, post, h1, h2, h3, h4, h5⟩

/-- Witness for C1 at `text = "@ab!"`, `s = "@ab"`, `marker = '@'`. -/
theorem tokens_wellformed_and_maximal_witness :
    (("@ab" : String) ∈ okValue (parse_mentions ("@ab!"))) ∧
    (∃ body pre post, ("@ab" : String).toList = '@' :: body ∧ body ≠ [] ∧
      (∀ c ∈ body, isBodyChar c = true) ∧
      ("@ab!" : String).toList = pre ++ ("@ab" : String).toList ++ post ∧
      (∀ c ∈ post.head?, isBodyChar c = false)) :=
  ⟨by decide,
   tokens_wellformed_and_maximal ("@ab!") ("@ab") '@' (Or.inl ⟨rfl, by decide⟩)⟩

/-- C2: for every input and flag pair, the collections returned by
`parse_mentions`, `parse_hashtags` and both fields of the combiner's
`MentionsHashtags` contain no duplicate entries (exact-string equality). -/
theorem collections_nodup (text : String) (m h : Bool) :
    (okValue (parse_mentions text)).Nodup ∧
    (okValue (parse_hashtags text)).Nodup ∧
    (okResult (parse_mentions_hashtags text m h)).mentions.Nodup ∧
    (okResult (parse_mentions_hashtags text m h)).hashtags.Nodup := by
  refine ⟨List.nodup_dedup _, List.nodup_dedup _, ?_, ?_⟩
  · rw [parse_mentions_hashtags_eq]
    cases m
    · exact List.nodup_nil
    · exact List.nodup_dedup _
  · rw [parse_mentions_hashtags_eq]
    cases h
    · exact List.nodup_nil
    · exact List.nodup_dedup _

/-- C3: on `"@MrBeast check out the #fyp and #Challenge2025!"` with both
flags true the combiner returns exactly the mention `@MrBeast` and the
hashtags `#fyp` and `#Challenge2025`; the trailing `!` is not part of the
hashtag token. -/
theorem scenario_mrbeast :
    parse_mentions_hashtags ("@MrBeast check out the #fyp and #Challenge2025!")
      true true = .ok ⟨["@MrBeast"], ["#fyp", "#Challenge2025"]⟩ := by
  rfl

/-- Counterexample to C4 as stated: at position 0 of the text `#` followed
by U+212A (Kelvin sign) the marker is not followed by any character of the
claimed ASCII body class, yet the program emits the token `#`U+212A at that
position (the `(?i)` folding puts U+212A in the compiled class). -/
theorem bare_marker_no_token_counterexample :
    isSpecBodyChar (Char.ofNat 0x212A) = false ∧
    okValue (parse_hashtags (String.mk ['#', Char.ofNat 0x212A])) =
      [String.mk ['#', Char.ofNat 0x212A]] := by
  decide

/-- C4 (amended: "body-class" is the compiled, case-folded class): a marker
occurrence not immediately followed by a character of the compiled body
class yields no token at that position — no returned token occurrence starts
there; and concretely `"@ "` and `"# !"` produce empty collections while
`"@@name"` produces exactly `@name`. -/
theorem bare_marker_no_token (text : String) (pre post : List Char) (s : String) :
    parse_mentions ("@ ") = .ok [] ∧ parse_hashtags ("# !") = .ok [] ∧
    parse_mentions ("@@name") = .ok ["@name"] ∧
    (text.toList = pre ++ '@' :: post →
      (∀ c ∈ post.head?, isBodyChar c = false) →
      s ∈ okValue (parse_mentions text) →
      ∀ rest, '@' :: post ≠ s.toList ++ rest) ∧
    (text.toList = pre ++ '#' :: post →
      (∀ c ∈ post.head?, isBodyChar c = false) →
      s ∈ okValue (parse_hashtags text) →
      ∀ rest, '#' :: post ≠ s.toList ++ rest) := by
  refine ⟨by rfl, by rfl, by rfl, ?_, ?_⟩
  · intro _ hp hs rest heq
    obtain ⟨body, pre2, post2, h1, h2, h3, _, _⟩ :=
      findTokens_sound (mem_okValue_mentions hs)
    rw [h1, List.cons_append] at heq
    have hpost : post = body ++ rest := (List.cons.injEq _ _ _ _).mp heq |>.2
    cases body with
    | nil => exact h2 rfl
    | cons b bs =>
      have hb : isBodyChar b = true := h3 b (List.mem_cons_self b bs)
      have hb' : isBodyChar b = false := by
        refine hp b ?_
        rw [hpost]
        rfl
      rw [hb] at hb'
      exact Bool.noConfusion hb'
  · intro _ hp hs rest heq
    obtain ⟨body, pre2, post2, h1, h2, h3, _, _⟩ :=
      findTokens_sound (mem_okValue_hashtags hs)
    rw [h1, List.cons_append] at heq
    have hpost : post = body ++ rest := (List.cons.injEq _ _ _ _).mp heq |>.2
    cases body with
    | nil => exact h2 rfl
    | cons b bs =>
      have hb : isBodyChar b = true := h3 b (List.mem_cons_self b bs)
      have hb' : isBodyChar b = false := by
        refine hp b ?_
        rw [hpost]
        rfl
      rw [hb] at hb'
      exact Bool.noConfusion hb'

/-- Witness for C4 at `text = "@a @!"`: the second `@` is followed by `!`,
and indeed no returned token occurrence starts there. -/
theorem bare_marker_no_token_witness :
    (("@a @!" : String).toList = ['@', 'a', ' '] ++ '@' :: ['!']) ∧
    (∀ c ∈ (['!'] : List Char).head?, isBodyChar c = false) ∧
    (("@a" : String) ∈ okValue (parse_mentions ("@a @!"))) ∧
    (∀ rest, '@' :: ['!'] ≠ ("@a" : String).toList ++ rest) :=
  ⟨by decide, head?_cons_false (by decide) _, by decide,
   (bare_marker_no_token ("@a @!") (['@', 'a', ' ']) (['!']) ("@a")).2.2.2.1
     (by decide) (head?_cons_false (by decide) _) (by decide)⟩

/-- Counterexample to C5 as stated: in `"@Nameſ @name"` both `"@Name"` and
`"@name"` occur as token occurrences maximal with respect to the claimed
ASCII class (U+017F is outside it), yet the program extends the first match
through the folded U+017F and returns `"@Nameſ"`, not `"@Name"`. -/
theorem case_preserving_counterexample :
    specOccursAsToken ("@Nameſ @name") ("@Name") ∧
    specOccursAsToken ("@Nameſ @name") ("@name") ∧
    ("@Name" : String) ∉ okValue (parse_mentions ("@Nameſ @name")) ∧
    ("@Nameſ" : String) ∈ okValue (parse_mentions ("@Nameſ @name")) := by
  refine ⟨⟨[], Char.ofNat 0x017F :: (" @name" : String).toList, by decide, ?_⟩,
    ⟨("@Nameſ " : String).toList, [], by decide, ?_⟩, by decide, by decide⟩
  · intro c hc
    rw [List.head?_cons, Option.mem_def, Option.some.injEq] at hc
    rw [← hc]
    decide
  · intro c hc
    simp at hc

/-- C5 (amended: "token occurrence" means maximal with respect to the
compiled, case-folded body class — ASCII plus U+017F and U+212A): if both
`@Name` and `@name` occur in the text as such maximal token occurrences,
`parse_mentions` returns both, with casing preserved, as distinct
entries. -/
theorem case_preserving_distinct (text : String)
    (h1 : occursAsToken text ("@Name")) (h2 : occursAsToken text ("@name")) :
    ("@Name" : String) ∈ okValue (parse_mentions text) ∧
    ("@name" : String) ∈ okValue (parse_mentions text) ∧
    ("@Name" : String) ≠ ("@name" : String) := by
  refine ⟨?_, ?_, by decide⟩
  · have hm := @occursAsToken_mem text ("@Name") '@' (['N', 'a', 'm', 'e'])
      (by rfl) (by decide) (by decide) h1
    have := mem_findTokens_okValue_mentions hm
    rwa [mk_toList] at this
  · have hm := @occursAsToken_mem text ("@name") '@' (['n', 'a', 'm', 'e'])
      (by rfl) (by decide) (by decide) h2
    have := mem_findTokens_okValue_mentions hm
    rwa [mk_toList] at this

/-- Witness for C5 at `text = "@Name @name"`. -/
theorem case_preserving_distinct_witness :
    ("@Name" : String) ∈ okValue (parse_mentions ("@Name @name")) ∧
    ("@name" : String) ∈ okValue (parse_mentions ("@Name @name")) ∧
    ("@Name" : String) ≠ ("@name" : String) :=
  case_preserving_distinct ("@Name @name")
    ⟨[], (" @name" : String).toList, by decide, head?_cons_false (by decide) _⟩
    ⟨("@Name " : String).toList, [], by decide, head?_nil_false⟩

/-- C6: the combiner's mentions field equals `parse_mentions text` when the
mentions flag is true and is empty otherwise; symmetrically for hashtags. -/
theorem combiner_flag_selection (text : String) (m h : Bool) :
    okResult (parse_mentions_hashtags text m h) =
      ⟨if m then okValue (parse_mentions text) else [],
       if h then okValue (parse_hashtags text) else []⟩ := by
  rw [parse_mentions_hashtags_eq]
  rfl

/-- C7: with both flags false the combiner returns an empty result that does
not depend on the input text in any observable way. -/
theorem combiner_short_circuit (text other : String) :
    parse_mentions_hashtags text false false = .ok ⟨[], []⟩ ∧
    parse_mentions_hashtags text false false =
      parse_mentions_hashtags other false false :=
  ⟨rfl, rfl⟩

/-- C8: for every input and flag combination all three entry points return a
success result — the pattern-compilation failure branch is unreachable since
the two patterns are fixed valid literals — and empty input is not an error,
it yields empty collections. -/
theorem extractors_never_fail (text : String) (m h : Bool) :
    (∃ l, parse_mentions text = .ok l) ∧
    (∃ l, parse_hashtags text = .ok l) ∧
    (∃ r, parse_mentions_hashtags text m h = .ok r) ∧
    parse_mentions ("") = .ok [] ∧ parse_hashtags ("") = .ok [] :=
  ⟨⟨_, parse_mentions_eq text⟩, ⟨_, parse_hashtags_eq text⟩,
   ⟨_, parse_mentions_hashtags_eq text m h⟩, rfl, rfl⟩

/-- C9: the hashtag extractor is the mention extractor with the marker
swapped: a string is returned by `parse_hashtags` on `text` exactly when its
`@`/`#`-swapped form is returned by `parse_mentions` on the `@`/`#`-swapped
text. -/
theorem hashtags_eq_mentions_marker_swapped (text s : String) :
    s ∈ okValue (parse_hashtags text) ↔
      swapString s ∈ okValue (parse_mentions (swapString text)) := by
  rw [okValue_parse_hashtags, okValue_parse_mentions, List.mem_dedup,
    List.mem_dedup, List.mem_map, List.mem_map]
  have htl : (swapString text).toList = text.toList.map swapChar := rfl
  rw [htl, findTokens_map_swap]
  constructor
  · rintro ⟨t, ht, rfl⟩
    exact ⟨t.map swapChar, List.mem_map_of_mem _ ht, rfl⟩
  · rintro ⟨u, hu, heq⟩
    rw [List.mem_map] at hu
    obtain ⟨t, ht, rfl⟩ := hu
    refine ⟨t, ht, ?_⟩
    have hdata : t.map swapChar = s.toList.map swapChar := congrArg String.toList heq
    have ht' : t = s.toList :=
      (List.map_injective_iff.mpr swapChar_swapChar.injective) hdata
    rw [ht']
    exact mk_toList s

/-- C10: each extractor returns at most as many strings as there are
occurrences of its marker character in the input; in particular text with no
marker yields an empty collection. -/
theorem counts_bounded_by_markers (text : String) :
    (okValue (parse_mentions text)).length ≤ text.toList.count '@' ∧
    (okValue (parse_hashtags text)).length ≤ text.toList.count '#' ∧
    (text.toList.count '@' = 0 → okValue (parse_mentions text) = []) ∧
    (text.toList.count '#' = 0 → okValue (parse_hashtags text) = []) := by
  have hm : (okValue (parse_mentions text)).length ≤ text.toList.count '@' := by
    rw [okValue_parse_mentions]
    calc (((findTokens '@' text.toList).map String.mk).dedup).length
        ≤ ((findTokens '@' text.toList).map String.mk).length :=
          (List.dedup_sublist _).length_le
      _ = (findTokens '@' text.toList).length := by simp
      _ ≤ _ := findTokens_length_le_count '@' text.toList
  have hh : (okValue (parse_hashtags text)).length ≤ text.toList.count '#' := by
    rw [okValue_parse_hashtags]
    calc (((findTokens '#' text.toList).map String.mk).dedup).length
        ≤ ((findTokens '#' text.toList).map String.mk).length :=
          (List.dedup_sublist _).length_le
      _ = (findTokens '#' text.toList).length := by simp
      _ ≤ _ := findTokens_length_le_count '#' text.toList
  refine ⟨hm, hh, ?_, ?_⟩
  · intro h0
    rw [h0] at hm
    exact List.eq_nil_of_length_eq_zero (Nat.le_zero.mp hm)
  · intro h0
    rw [h0] at hh
    exact List.eq_nil_of_length_eq_zero (Nat.le_zero.mp hh)

/-- Witness for C10 at `text = "hello"` (no markers at all). -/
theorem counts_bounded_by_markers_witness :
    (("hello" : String).toList.count '@' = 0) ∧
    okValue (parse_mentions ("hello")) = [] :=
  ⟨by decide, (counts_bounded_by_markers ("hello")).2.2.1 (by decide)⟩
